import Mathlib

/-!
Verification development for the two maintenance scripts of this repository:
`scripts/fix_aspect_ratio.py` (image normalizer) and
`scripts/generate_portfolio.py` (portfolio page generator).

The Python code is shallowly embedded: images are pixel grids with natural
number channels, Python float arithmetic on aspect comparisons is modelled
over the exact rationals, and Python `round` (banker's rounding, half to
even) is modelled exactly.  Filesystem interaction is abstracted into
oracle parameters; everything computed by the scripts themselves is
embedded faithfully.
-/

/-- An RGBA pixel.  Channels are 8-bit in the source; the embedding uses
natural numbers and states channel bounds where they matter. -/
structure Pixel where
  r : Nat
  g : Nat
  b : Nat
  a : Nat
deriving DecidableEq

/-- A decoded image: dimensions plus a pixel lookup function (the embedding
of a PIL image in mode RGBA; `_crop_whitespace` converts every input to
RGBA first, so all model images are RGBA). -/
structure Image where
  width : Nat
  height : Nat
  pix : Nat → Nat → Pixel

/-- A uniform image, every pixel equal to `p`. -/
def solid (w h : Nat) (p : Pixel) : Image := ⟨w, h, fun _ _ => p⟩

/-- Column `x` holds a pixel satisfying the predicate. -/
def colHit (p : Nat → Nat → Bool) (h x : Nat) : Bool :=
  (List.range h).any (fun y => p x y)

/-- Row `y` holds a pixel satisfying the predicate. -/
def rowHit (p : Nat → Nat → Bool) (w y : Nat) : Bool :=
  (List.range w).any (fun x => p x y)

/-- Bounding box of the pixels satisfying the predicate, as PIL
`getbbox`: `(left, upper, right, lower)` with exclusive right/lower, or
`none` when no pixel satisfies it. -/
def bbox (w h : Nat) (p : Nat → Nat → Bool) : Option (Nat × Nat × Nat × Nat) :=
  let xs := (List.range w).filter (colHit p h)
  let ys := (List.range h).filter (rowHit p w)
  match xs.head?, xs.getLast?, ys.head?, ys.getLast? with
  | some x0, some x1, some y0, some y1 => some (x0, y0, x1 + 1, y1 + 1)
  | _, _, _, _ => none

/-- Alpha-channel test used by `_crop_whitespace`: pixel not fully
transparent. -/
def alphaHit (img : Image) : Nat → Nat → Bool := fun x y => (img.pix x y).a != 0

/-- One channel of `ImageChops.add(diff, diff, 2.0, -100)` where `diff` is
the absolute difference from pure white: `(d + d) / 2 - 100` clipped
to `[0, 255]`. -/
def diffAmp (c : Nat) : Nat := min ((max c 255 - min c 255) - 100) 255

/-- Test for a non-zero pixel of the amplified difference image (any of the
three RGB bands non-zero; the difference is taken on the RGB conversion,
which drops alpha). -/
def diffHit (img : Image) : Nat → Nat → Bool := fun x y =>
  diffAmp (img.pix x y).r != 0 || diffAmp (img.pix x y).g != 0 || diffAmp (img.pix x y).b != 0

/-- PIL `Image.crop` with box `(x0, y0, x1, y1)`. -/
def cropTo (img : Image) (bb : Nat × Nat × Nat × Nat) : Image :=
  ⟨bb.2.2.1 - bb.1, bb.2.2.2 - bb.2.1, fun x y => img.pix (bb.1 + x) (bb.2.1 + y)⟩

/-- Embedding of `_crop_whitespace`: crop to the alpha bounding box when it
is a proper sub-box; otherwise crop to the bounding box of the amplified
difference from white when that is a proper sub-box; otherwise return the
image unchanged with the flag cleared. -/
def cropWhitespace (img : Image) : Image × Bool :=
  let w := img.width
  let h := img.height
  let fallback :=
    match bbox w h (diffHit img) with
    | some bb => if bb ≠ (0, 0, w, h) then (cropTo img bb, true) else (img, false)
    | none => (img, false)
  match bbox w h (alphaHit img) with
  | some bb => if bb ≠ (0, 0, w, h) then (cropTo img bb, true) else fallback
  | none => fallback

/-- The target aspect `TARGET_ASPECT = 16 / 9`, exact. -/
def targetAspect : ℚ := 16 / 9

/-- Width-over-height of an image, over the exact rationals. -/
def aspect (w h : Nat) : ℚ := (w : ℚ) / (h : ℚ)

/-- Absolute value on the rationals, kept executable. -/
def qabs (q : ℚ) : ℚ := if q < 0 then -q else q

/-- Embedding of `math.isclose(a, b, rel_tol=1e-2, abs_tol=1e-2)`. -/
def iscloseB (a b : ℚ) : Bool :=
  decide (qabs (a - b) ≤ max ((1 / 100) * max (qabs a) (qabs b)) (1 / 100))

/-- Floor of a rational as an integer, via floor division of the
numerator by the denominator. -/
def ratFloor (q : ℚ) : Int := q.num.fdiv (q.den : Int)

/-- Python `round` on an exact rational: round half to even. -/
def pyRound (q : ℚ) : Int :=
  let n := ratFloor q
  let r := q - (n : ℚ)
  if r < 1 / 2 then n
  else if (1 / 2 : ℚ) < r then n + 1
  else if n % 2 = 0 then n else n + 1

/-- Canvas dimensions chosen by `_pad_to_ratio` for a cropped image of
size `w × h` whose aspect is outside tolerance: grow the height when too
wide, grow the width when too narrow. -/
def padDims (w h : Nat) : Nat × Nat :=
  if targetAspect < aspect w h then (w, (pyRound ((w : ℚ) / targetAspect)).toNat)
  else ((pyRound ((h : ℚ) * targetAspect)).toNat, h)

/-- Centering offsets `((W - w) // 2, (H - h) // 2)` used by the paste. -/
def padOffset (w h : Nat) : Nat × Nat :=
  (((padDims w h).1 - w) / 2, ((padDims w h).2 - h) / 2)

/-- PIL `MULDIV255`: approximate `v * a / 255` with the rounding used by
the paste blend. -/
def muldiv255 (v a : Nat) : Nat := ((v * a + 128) / 256 + (v * a + 128)) / 256

/-- Pasting a pixel onto a fully transparent background with the pixel's
own alpha as mask: each band becomes `MULDIV255(band, alpha)`. -/
def blendT (p : Pixel) : Pixel :=
  ⟨muldiv255 p.r p.a, muldiv255 p.g p.a, muldiv255 p.b p.a, muldiv255 p.a p.a⟩

/-- Embedding of `Image.new("RGBA", (W, H), (0,0,0,0))` followed by
`padded.paste(cropped, offset, cropped)`: a transparent canvas with the
cropped image alpha-blended at the centering offset. -/
def pasteCenter (bigW bigH : Nat) (c : Image) : Image :=
  let ox := (bigW - c.width) / 2
  let oy := (bigH - c.height) / 2
  ⟨bigW, bigH, fun x y =>
    if ox ≤ x ∧ x < ox + c.width ∧ oy ≤ y ∧ y < oy + c.height then
      blendT (c.pix (x - ox) (y - oy))
    else ⟨0, 0, 0, 0⟩⟩

/-- Embedding of `_pad_to_ratio` at the file level: `none` means the
function returned `False` without writing; `some out` means it wrote
`out` back to the file and returned `True`. -/
def padToTarget (img : Image) : Option Image :=
  match cropWhitespace img with
  | (cropped, didCrop) =>
    if cropped.width = 0 ∨ cropped.height = 0 then none
    else if iscloseB (aspect cropped.width cropped.height) targetAspect then
      (if didCrop then some cropped else none)
    else
      some (pasteCenter (padDims cropped.width cropped.height).1
        (padDims cropped.width cropped.height).2 cropped)

/-- File content after one run of the normalizer on one image: the written
image when a write happens, the old content otherwise. -/
def runOnce (img : Image) : Image := (padToTarget img).getD img

/-- Example input: an 18×11 image with a 1-pixel fully transparent border
around a 16×9 opaque block whose outer ring is pure white and whose
14×7 interior is black. -/
def ringImg : Image :=
  ⟨18, 11, fun x y =>
    if 1 ≤ x ∧ x ≤ 16 ∧ 1 ≤ y ∧ y ≤ 9 then
      (if 2 ≤ x ∧ x ≤ 15 ∧ 2 ≤ y ∧ y ≤ 8 then ⟨0, 0, 0, 255⟩ else ⟨255, 255, 255, 255⟩)
    else ⟨0, 0, 0, 0⟩⟩

/-- Example input: a 2×2 transparent image with one opaque pixel at (1,1). -/
def dotImg : Image :=
  ⟨2, 2, fun x y => if x = 1 ∧ y = 1 then ⟨0, 0, 0, 255⟩ else ⟨0, 0, 0, 0⟩⟩

/-- Python `str.lstrip()`: drop leading whitespace. -/
def lstrip (s : String) : String := ⟨s.data.dropWhile Char.isWhitespace⟩

/-- Python `str.rstrip()`: drop trailing whitespace. -/
def rstrip (s : String) : String := ⟨(s.data.reverse.dropWhile Char.isWhitespace).reverse⟩

/-- Python `str.strip()`. -/
def strip (s : String) : String := lstrip (rstrip s)

/-- Python `str.startswith`. -/
def startsWithStr (s pat : String) : Bool := pat.data.isPrefixOf s.data

/-- Python `str.endswith`. -/
def endsWithStr (s pat : String) : Bool := pat.data.reverse.isPrefixOf s.data.reverse

/-- Drop the first `n` characters. -/
def dropStr (s : String) (n : Nat) : String := ⟨s.data.drop n⟩

/-- Drop the last `n` characters. -/
def dropRightStr (s : String) (n : Nat) : String := ⟨s.data.take (s.data.length - n)⟩

/-- Python `str.lower()` (inputs are ASCII). -/
def lowerStr (s : String) : String := ⟨s.data.map Char.toLower⟩

/-- Python `line.split(":", 1)` guarded by `":" in line`: `none` when the
line holds no colon, else the text before and after the first colon. -/
def splitFirstColon (s : String) : Option (String × String) :=
  if s.data.contains ':' then
    some (⟨s.data.takeWhile (fun c => c != ':')⟩, ⟨(s.data.dropWhile (fun c => c != ':')).drop 1⟩)
  else none

/-- Join strings with a separator, Python `sep.join`. -/
def joinWith (sep : String) : List String → String
  | [] => ""
  | [x] => x
  | x :: y :: t => x ++ sep ++ joinWith sep (y :: t)

/-- Split a character list at every newline (Python `str.split("\n")`). -/
def splitNlGo (acc : List Char) : List Char → List String
  | [] => [⟨acc.reverse⟩]
  | c :: t => if c = '\n' then ⟨acc.reverse⟩ :: splitNlGo [] t else splitNlGo (c :: acc) t

/-- Python `str.split("\n")`. -/
def splitAllNl (s : String) : List String := splitNlGo [] s.data

/-- Python `str.splitlines()` for `\n`-separated text: like splitting on
newline, except that the empty string yields no lines and a trailing
newline yields no final empty line. -/
def pySplitLines (s : String) : List String :=
  if s.data = [] then []
  else if s.data.getLast? = some '\n' then (splitAllNl s).dropLast else splitAllNl s

/-- Longest common prefix of two character lists. -/
def commonPrefixCh : List Char → List Char → List Char
  | a :: as, b :: bs => if a = b then a :: commonPrefixCh as bs else []
  | _, _ => []

/-- A line of one or more characters that are all blanks or tabs
(CPython `_whitespace_only_re`). -/
def wsOnly (l : String) : Bool := l ≠ "" && l.data.all (fun c => c = ' ' || c = '\t')

/-- The leading blank/tab run of a line holding at least one other
character (CPython `_leading_whitespace_re`). -/
def lineIndent (l : String) : Option String :=
  if l.data.any (fun c => !(c = ' ' || c = '\t')) then
    some ⟨l.data.takeWhile (fun c => c = ' ' || c = '\t')⟩
  else none

/-- Embedding of `textwrap.dedent`: blank out whitespace-only lines, find
the longest common leading blank/tab margin of the remaining lines, and
strip that margin from every line that starts with it. -/
def dedent (text : String) : String :=
  let ls := (splitAllNl text).map (fun l => if wsOnly l then "" else l)
  let indents := ls.filterMap lineIndent
  let margin := match indents with
    | [] => ""
    | i :: is => is.foldl (fun (a b : String) => (⟨commonPrefixCh a.data b.data⟩ : String)) i
  joinWith "\n" (ls.map (fun l =>
    if margin.data.isPrefixOf l.data then (⟨l.data.drop margin.data.length⟩ : String) else l))

/-- Embedding of `_clean_scalar`: strip, remove one layer of surrounding
double quotes, strip again. -/
def cleanScalar (value : String) : String :=
  let v := strip value
  let v2 := if startsWithStr v "\"" && endsWithStr v "\"" && decide (2 ≤ v.data.length) then
      (⟨(v.data.drop 1).take (v.data.length - 2)⟩ : String)
    else v
  strip v2

/-- Embedding of `_normalize_multiline`: trim leading and trailing blank
lines, dedent, strip. -/
def normalizeMultiline (text : String) : String :=
  let lines0 := pySplitLines text
  let lines1 := lines0.dropWhile (fun l => strip l = "")
  let lines2 := (lines1.reverse.dropWhile (fun l => strip l = "")).reverse
  if lines2 = [] then "" else strip (dedent (joinWith "\n" lines2))

/-- A parsed value of the limited YAML subset: a scalar string or a list
of sub-mappings. -/
inductive YamlValue where
  | scalar (s : String)
  | seq (items : List (List (String × String)))
deriving DecidableEq

/-- Python dict assignment `d[k] = v` on an insertion-ordered mapping:
update in place when the key exists, append otherwise. -/
def assocSet {α : Type} (d : List (String × α)) (k : String) (v : α) : List (String × α) :=
  if d.any (fun kv => kv.1 == k) then
    d.map (fun kv => if kv.1 == k then (k, v) else kv)
  else d ++ [(k, v)]

/-- Inner loop of `_parse_quoted_block` over the lines that follow the
opening line: blank lines become empty pieces, comment lines are skipped,
a line ending in an unescaped quote closes the block, anything else is
accumulated right-stripped.  Returns the pieces and the unconsumed
lines. -/
def parseQuotedRest : List String → List String × List String
  | [] => ([], [])
  | seg :: rest =>
    if strip seg = "" then
      ("" :: (parseQuotedRest rest).1, (parseQuotedRest rest).2)
    else if startsWithStr (strip seg) "#" then parseQuotedRest rest
    else if endsWithStr (strip seg) "\"" && !endsWithStr (strip seg) "\\\"" then
      ([dropRightStr (rstrip seg) 1], rest)
    else ((rstrip seg) :: (parseQuotedRest rest).1, (parseQuotedRest rest).2)

/-- Embedding of `_parse_quoted_block`: `value` is the raw value starting
with a double quote; returns the accumulated text and the unconsumed
lines. -/
def parseQuotedBlock (value : String) (rest : List String) : String × List String :=
  let text := dropStr value 1
  if endsWithStr text "\"" && !endsWithStr text "\\\"" then (dropRightStr text 1, rest)
  else
    let r := parseQuotedRest rest
    (joinWith "\n" ((if text = "" then [] else [text]) ++ r.1), r.2)

/-- Inner loop of `_parse_list_block` collecting `sub_key: value` detail
lines indented by four spaces into the current list item. -/
def parseListDetails (entry : List (String × String)) :
    List String → (List (String × String)) × List String
  | [] => (entry, [])
  | detail :: rest =>
    if strip detail = "" then parseListDetails entry rest
    else if startsWithStr (strip detail) "#" then parseListDetails entry rest
    else if !startsWithStr detail "    " then (entry, detail :: rest)
    else
      match splitFirstColon (strip detail) with
      | some kv => parseListDetails (assocSet entry (strip kv.1) (cleanScalar kv.2)) rest
      | none => parseListDetails entry rest

/-- Embedding of `_parse_list_block`, fuelled by the number of remaining
lines (each outer iteration consumes at least one line, so the initial
fuel `lines.length` is never exhausted). -/
def parseListBlock : Nat → List String → List (List (String × String)) × List String
  | 0, ls => ([], ls)
  | _ + 1, [] => ([], [])
  | fuel + 1, line :: rest =>
    if strip line = "" then parseListBlock fuel rest
    else if startsWithStr (strip line) "#" then parseListBlock fuel rest
    else if !startsWithStr line "  " then ([], line :: rest)
    else if startsWithStr (strip line) "-" then
      let inline := strip (dropStr (strip line) 1)
      let entry0 : List (String × String) :=
        if inline ≠ "" ∧ inline.data.contains ':' then
          match splitFirstColon inline with
          | some kv => [(strip kv.1, cleanScalar kv.2)]
          | none => []
        else []
      let d := parseListDetails entry0 rest
      let b := parseListBlock fuel d.2
      (d.1 :: b.1, b.2)
    else parseListBlock fuel rest

/-- Main loop of `parse_simple_yaml`, fuelled by the number of remaining
lines (each iteration consumes at least one line). -/
def parseYamlGo : Nat → List String → List (String × YamlValue) → List (String × YamlValue)
  | 0, _, data => data
  | _ + 1, [], data => data
  | fuel + 1, line :: rest, data =>
    if strip line = "" then parseYamlGo fuel rest data
    else if startsWithStr (strip line) "#" then parseYamlGo fuel rest data
    else
      match splitFirstColon line with
      | none => parseYamlGo fuel rest data
      | some kv =>
        let key := strip kv.1
        let value := lstrip kv.2
        if startsWithStr value "\"" then
          let q := parseQuotedBlock value rest
          parseYamlGo fuel q.2 (assocSet data key (YamlValue.scalar (normalizeMultiline q.1)))
        else if value = "" then
          let b := parseListBlock rest.length rest
          parseYamlGo fuel b.2 (assocSet data key (YamlValue.seq b.1))
        else parseYamlGo fuel rest (assocSet data key (YamlValue.scalar (cleanScalar value)))

/-- Embedding of `parse_simple_yaml`. -/
def parseSimpleYaml (source : String) : List (String × YamlValue) :=
  parseYamlGo (pySplitLines source).length (pySplitLines source) []

/-- Scan for a contiguous sub-sequence (Python `pat in s` on strings). -/
def listHasSub (pat : List Char) : List Char → Bool
  | [] => pat.isPrefixOf []
  | c :: t => pat.isPrefixOf (c :: t) || listHasSub pat t

/-- Python `pat in s` for strings. -/
def strHasSub (s pat : String) : Bool := listHasSub pat.data s.data

/-- Loop body of `_iter_local_image_paths` over the collected `src`
attributes.  `seen` is the dedup set; `fsOk` is the filesystem oracle
standing for "the resolved path exists and its suffix is supported"
(the two warn-and-skip checks). -/
def extractGo (fsOk : String → Bool) : List String → List String → List String
  | [], _ => []
  | s :: rest, seen =>
    if s = "" ∨ s ∈ seen then extractGo fsOk rest seen
    else if strHasSub s "://" || startsWithStr s "data:" then extractGo fsOk rest (s :: seen)
    else if fsOk s then s :: extractGo fsOk rest (s :: seen)
    else extractGo fsOk rest (s :: seen)

/-- Embedding of `_iter_local_image_paths`: the sequence of sources whose
resolved paths the generator yields, in order. -/
def iterLocalImagePaths (fsOk : String → Bool) (sources : List String) : List String :=
  extractGo fsOk sources []

/-- The sequence of first occurrences of a list of sources, from the
spec's words "de-duplicated while preserving first-seen order"; used as
the reference order for the extractor. -/
def firstOccurGo : List String → List String → List String
  | [], _ => []
  | s :: rest, seen =>
    if s ∈ seen then firstOccurGo rest seen else s :: firstOccurGo rest (s :: seen)

/-- First occurrences of a source list in order. -/
def firstOccur (l : List String) : List String := firstOccurGo l []

/-- Embedding of `main` of the image normalizer: exit code and count of
padded images.  `htmlExists` abstracts the `html_file.exists()` check;
`sources` are the `src` attributes collected from the HTML; `fsOk`
abstracts the per-image existence/format checks (failures are warnings
that skip the image); `load` abstracts decoding an image file. -/
def mainRun (htmlExists : Bool) (sources : List String) (fsOk : String → Bool)
    (load : String → Image) : Nat × Nat :=
  if htmlExists = false then (1, 0)
  else (0, ((iterLocalImagePaths fsOk sources).filter
    (fun s => (padToTarget (load s)).isSome)).length)

/-- Python `html.escape(s, quote=True)` on one character. -/
def escChar (c : Char) : List Char :=
  if c = '&' then "&amp;".data
  else if c = '<' then "&lt;".data
  else if c = '>' then "&gt;".data
  else if c = '"' then "&quot;".data
  else if c = '\'' then "&#x27;".data
  else [c]

/-- Python `html.escape` with default quoting. -/
def htmlEscape (s : String) : String := ⟨(s.data.map escChar).flatten⟩

/-- Python `str.replace(pat, rep)` on character lists, all occurrences,
left to right, non-overlapping. -/
def replaceList (pat rep : List Char) : List Char → List Char
  | [] => []
  | c :: t =>
    if pat ≠ [] ∧ pat.isPrefixOf (c :: t) then
      rep ++ replaceList pat rep ((c :: t).drop pat.length)
    else c :: replaceList pat rep t
termination_by l => l.length
decreasing_by
  · simp only [List.length_drop]
    have hp : 0 < pat.length := List.length_pos.mpr (by tauto)
    simp only [List.length_cons]
    omega
  · simp

/-- Python `str.replace` for strings. -/
def strReplace (s pat rep : String) : String := ⟨replaceList pat.data rep.data s.data⟩

/-- Template for the gallery block (`GALLERY_TEMPLATE`). -/
def GALLERY_TEMPLATE : String :=
  "            <div class=\"portfolio-card__gallery\">\n\x7b\x7bFIGURES\x7d\x7d\n            </div>"

/-- Template for one gallery figure (`FIGURE_TEMPLATE`). -/
def FIGURE_TEMPLATE : String :=
  "              <figure class=\"portfolio-card__figure\">\n                <img src=\"\x7b\x7bSRC\x7d\x7d\" alt=\"\x7b\x7bALT\x7d\x7d\">\n\x7b\x7bCAPTION\x7d\x7d\n              </figure>"

/-- Template for a figure caption (`FIGURE_CAPTION_TEMPLATE`). -/
def FIGURE_CAPTION_TEMPLATE : String :=
  "                <figcaption>\x7b\x7bTEXT\x7d\x7d</figcaption>"

/-- Template for the links block (`LINKS_TEMPLATE`). -/
def LINKS_TEMPLATE : String :=
  "            <div class=\"portfolio-card__links\">\n\x7b\x7bITEMS\x7d\x7d\n            </div>"

/-- Template for the paper button (`PAPER_BUTTON_TEMPLATE`). -/
def PAPER_BUTTON_TEMPLATE : String :=
  "<a class=\"button button--doc\" href=\"\x7b\x7bURL\x7d\x7d\" target=\"_blank\" rel=\"noopener\">\n                  <span class=\"button__icon\" aria-hidden=\"true\">\n                    <svg viewBox=\"0 0 32 32\" role=\"img\" focusable=\"false\">\n                      <path d=\"M9 3h11l7 7v15a4 4 0 0 1-4 4H9a4 4 0 0 1-4-4V7a4 4 0 0 1 4-4z\" fill=\"none\" stroke=\"currentColor\" stroke-width=\"2\" stroke-linejoin=\"round\"/>\n                      <path d=\"M20 3v8h7\" fill=\"none\" stroke=\"currentColor\" stroke-width=\"2\" stroke-linejoin=\"round\"/>\n                      <rect x=\"9\" y=\"19\" width=\"14\" height=\"8\" rx=\"1.6\" fill=\"currentColor\"/>\n                      <text x=\"16\" y=\"25\" text-anchor=\"middle\" font-family=\"Inter, \x27Segoe UI\x27, sans-serif\" font-size=\"7\" font-weight=\"700\" fill=\"#ffffff\">PDF</text>\n                    </svg>\n                  </span>\n                  <span class=\"button__label\">Read Paper</span>\n                </a>"

/-- Template for the video button (`VIDEO_BUTTON_TEMPLATE`). -/
def VIDEO_BUTTON_TEMPLATE : String :=
  "<a class=\"button button--video\" href=\"\x7b\x7bURL\x7d\x7d\" target=\"_blank\" rel=\"noopener\">\n                  <span class=\"button__label\">Watch Video</span>\n                </a>"

/-- Template for the status badge (`STATUS_BADGE_TEMPLATE`). -/
def STATUS_BADGE_TEMPLATE : String :=
  "<span class=\"badge badge--status\">\x7b\x7bSTATUS\x7d\x7d</span>"

/-- Embedding of `render_paper_button`. -/
def renderPaperButton (url : String) : String :=
  if url = "" then "" else strReplace PAPER_BUTTON_TEMPLATE "\x7b\x7bURL\x7d\x7d" (htmlEscape url)

/-- Embedding of `render_video_button`. -/
def renderVideoButton (url : String) : String :=
  if url = "" then "" else strReplace VIDEO_BUTTON_TEMPLATE "\x7b\x7bURL\x7d\x7d" (htmlEscape url)

/-- Embedding of `render_status_badge`. -/
def renderStatusBadge (status : String) : String :=
  strReplace STATUS_BADGE_TEMPLATE "\x7b\x7bSTATUS\x7d\x7d" (htmlEscape (strip status))

/-- Embedding of `render_links`: join the non-empty components. -/
def renderLinks (components : List String) : String :=
  let items := components.filter (fun i => i ≠ "")
  if items = [] then "" else strReplace LINKS_TEMPLATE "\x7b\x7bITEMS\x7d\x7d" (joinWith "\n" items)

/-- Python `.get(k, dflt)` on a parsed sub-mapping. -/
def dgetD (d : List (String × String)) (k dflt : String) : String :=
  match d.find? (fun kv => kv.1 == k) with
  | some kv => kv.2
  | none => dflt

/-- Embedding of `first_dict_with_key`: the first sub-mapping holding the
key. -/
def firstDictWithKey (items : List (List (String × String))) (k : String) :
    Option (List (String × String)) :=
  items.find? (fun d => d.any (fun kv => kv.1 == k))

/-- Python `data.get(key) or []` for a list-valued field: missing keys,
scalar values (whose character iteration yields no sub-mapping) and empty
lists all act as the empty list. -/
def getSeqOr (data : List (String × YamlValue)) (k : String) :
    List (List (String × String)) :=
  match data.find? (fun kv => kv.1 == k) with
  | some (_, YamlValue.seq items) => items
  | _ => []

/-- The status extracted by `render_card`: the `status` field of the first
paper sub-entry holding one, else the empty string. -/
def paperStatusOf (data : List (String × YamlValue)) : String :=
  dgetD ((firstDictWithKey (getSeqOr data "paper") "status").getD []) "status" ""

/-- The paper URL extracted by `render_card`: the `url` field of the first
paper sub-entry holding one, else the empty string. -/
def paperUrlOf (data : List (String × YamlValue)) : String :=
  dgetD ((firstDictWithKey (getSeqOr data "paper") "url").getD []) "url" ""

/-- The video URL `render_card` falls back to: the `url` field of the
first sub-entry of `videos` holding one. -/
def videoFallback (data : List (String × YamlValue)) : String :=
  dgetD ((firstDictWithKey (getSeqOr data "videos") "url").getD []) "url" ""

/-- The video URL extracted by `render_card`: a non-empty scalar `video`
field wins; a non-empty `video` list is neither a dict nor a string, so
it yields the empty URL; otherwise the fallback over `videos`. -/
def videoUrlOf (data : List (String × YamlValue)) : String :=
  match data.find? (fun kv => kv.1 == "video") with
  | some (_, YamlValue.scalar v) => if v ≠ "" then v else videoFallback data
  | some (_, YamlValue.seq l) => if l ≠ [] then "" else videoFallback data
  | none => videoFallback data

/-- The mutually exclusive link components computed by `render_card`:
`(paper_button, status_badge, video_button)`. -/
def cardLinkParts (data : List (String × YamlValue)) : String × String × String :=
  let status := paperStatusOf data
  let paperUrl := paperUrlOf data
  let videoButton := renderVideoButton (videoUrlOf data)
  if lowerStr status = "accepted" ∧ paperUrl ≠ "" then
    (renderPaperButton paperUrl, "", videoButton)
  else if status ≠ "" then ("", renderStatusBadge status, videoButton)
  else ("", "", videoButton)

/-- Embedding of `split_paragraphs`: group non-blank stripped lines,
splitting at blank lines. -/
def splitParagraphsGo (buffer : List String) : List String → List String
  | [] => if buffer = [] then [] else [joinWith " " buffer]
  | line :: rest =>
    if strip line = "" then
      if buffer = [] then splitParagraphsGo [] rest
      else joinWith " " buffer :: splitParagraphsGo [] rest
    else splitParagraphsGo (buffer ++ [strip line]) rest

/-- Embedding of `split_paragraphs` on a text. -/
def splitParagraphs (text : String) : List String := splitParagraphsGo [] (pySplitLines text)

/-- Embedding of `format_description`: escape and wrap each non-blank
paragraph. -/
def formatDescription (text : String) : String :=
  let t := strip text
  if t = "" then ""
  else joinWith "\n" (((splitParagraphs t).filter (fun part => strip part ≠ "")).map
    (fun part => "<p>" ++ htmlEscape (strip part) ++ "</p>"))

/-- Template for the collapsible description block
(`DESCRIPTION_TEMPLATE`). -/
def DESCRIPTION_TEMPLATE : String :=
  "            <details class=\"portfolio-card__details\">\n              <summary class=\"portfolio-card__summary\">Project overview</summary>\n              <div class=\"portfolio-card__description\">\n\x7b\x7bCONTENT\x7d\x7d\n              </div>\n            </details>"

/-- Template for one portfolio card (`CARD_TEMPLATE`). -/
def CARD_TEMPLATE : String :=
  "          <article class=\"portfolio-card\">\n            <h3>\x7b\x7bTITLE\x7d\x7d</h3>\n\x7b\x7bGALLERY\x7d\x7d\n\x7b\x7bDESCRIPTION\x7d\x7d\n\x7b\x7bLINKS\x7d\x7d\n          </article>"

/-- Python `data.get(k, dflt)` for a scalar-valued field. -/
def getScalarOr (data : List (String × YamlValue)) (k dflt : String) : String :=
  match data.find? (fun kv => kv.1 == k) with
  | some (_, YamlValue.scalar v) => v
  | _ => dflt

/-- The figure fragments built by `render_gallery`, one per image item
holding a non-empty `src`.  `rel` abstracts
`os.path.relpath(entry_dir / src, ROOT)` followed by `as_posix`. -/
def galleryFigures (rel : String → String) (images : List (List (String × String)))
    (fallbackTitle : String) : List String :=
  images.filterMap (fun image =>
    let srcValue := dgetD image "src" ""
    if srcValue = "" then none
    else
      let imgSrc := htmlEscape (rel srcValue)
      let captionRaw := dgetD image "caption" ""
      let captionHtml := if captionRaw = "" then "" else htmlEscape captionRaw
      let altText := if captionHtml = "" then htmlEscape fallbackTitle else captionHtml
      let fig := strReplace (strReplace FIGURE_TEMPLATE "\x7b\x7bSRC\x7d\x7d" imgSrc)
        "\x7b\x7bALT\x7d\x7d" altText
      some (if captionHtml ≠ "" then
          strReplace fig "\x7b\x7bCAPTION\x7d\x7d"
            (strReplace FIGURE_CAPTION_TEMPLATE "\x7b\x7bTEXT\x7d\x7d" captionHtml)
        else strReplace fig "\x7b\x7bCAPTION\x7d\x7d" ""))

/-- Embedding of `render_gallery`: the empty string when no image item
holds a non-empty `src`, else the gallery block over the figures. -/
def renderGallery (rel : String → String) (images : List (List (String × String)))
    (fallbackTitle : String) : String :=
  let figures := galleryFigures rel images fallbackTitle
  if figures = [] then ""
  else strReplace GALLERY_TEMPLATE "\x7b\x7bFIGURES\x7d\x7d" (joinWith "\n" figures)

/-- Embedding of `render_card` (entry-directory path resolution
abstracted into `rel`). -/
def renderCard (rel : String → String) (data : List (String × YamlValue)) : String :=
  let title := htmlEscape (getScalarOr data "title" "Untitled")
  let descriptionHtml := formatDescription (getScalarOr data "description" "")
  let descriptionBlock :=
    if descriptionHtml ≠ "" then
      strReplace DESCRIPTION_TEMPLATE "\x7b\x7bCONTENT\x7d\x7d" descriptionHtml
    else ""
  let galleryHtml := renderGallery rel (getSeqOr data "images") title
  let parts := cardLinkParts data
  let linksHtml := renderLinks [parts.1, parts.2.1, parts.2.2]
  strReplace (strReplace (strReplace (strReplace CARD_TEMPLATE
    "\x7b\x7bTITLE\x7d\x7d" title) "\x7b\x7bGALLERY\x7d\x7d" galleryHtml)
    "\x7b\x7bDESCRIPTION\x7d\x7d" descriptionBlock) "\x7b\x7bLINKS\x7d\x7d" linksHtml

/-! Helper lemmas. -/

theorem mem_of_head?_eq {α : Type} {l : List α} {a : α} (h : l.head? = some a) : a ∈ l := by
  cases l with
  | nil => simp at h
  | cons x t =>
    simp only [List.head?_cons, Option.some.injEq] at h
    simp [h]

theorem mem_of_getLast?_eq {α : Type} {l : List α} {a : α} (h : l.getLast? = some a) :
    a ∈ l := by
  induction l with
  | nil => simp at h
  | cons x t ih =>
    cases t with
    | nil =>
      simp only [List.getLast?_singleton, Option.some.injEq] at h
      simp [h]
    | cons y t2 =>
      rw [List.getLast?_cons_cons] at h
      exact List.mem_cons_of_mem _ (ih h)

theorem head_le_getLast {l : List Nat} (hs : l.Pairwise (· < ·)) {a b : Nat}
    (ha : l.head? = some a) (hb : l.getLast? = some b) : a ≤ b := by
  cases l with
  | nil => simp at ha
  | cons x t =>
    simp only [List.head?_cons, Option.some.injEq] at ha
    cases t with
    | nil =>
      simp only [List.getLast?_singleton, Option.some.injEq] at hb
      omega
    | cons y t2 =>
      rw [List.getLast?_cons_cons] at hb
      have hbmem : b ∈ y :: t2 := mem_of_getLast?_eq hb
      have hxb : x < b := (List.pairwise_cons.mp hs).1 b hbmem
      omega

theorem bbox_within {w h : Nat} {p : Nat → Nat → Bool} {bb : Nat × Nat × Nat × Nat}
    (hbb : bbox w h p = some bb) :
    bb.1 < bb.2.2.1 ∧ bb.2.1 < bb.2.2.2 ∧ bb.2.2.1 ≤ w ∧ bb.2.2.2 ≤ h := by
  simp only [bbox] at hbb
  split at hbb
  case _ x0 x1 y0 y1 hx0 hx1 hy0 hy1 =>
    have hxs : ((List.range w).filter (colHit p h)).Pairwise (· < ·) :=
      (List.pairwise_lt_range w).filter _
    have hys : ((List.range h).filter (rowHit p w)).Pairwise (· < ·) :=
      (List.pairwise_lt_range h).filter _
    have hx01 : x0 ≤ x1 := head_le_getLast hxs hx0 hx1
    have hy01 : y0 ≤ y1 := head_le_getLast hys hy0 hy1
    have hx1w : x1 < w :=
      List.mem_range.mp (List.mem_filter.mp (mem_of_getLast?_eq hx1)).1
    have hy1h : y1 < h :=
      List.mem_range.mp (List.mem_filter.mp (mem_of_getLast?_eq hy1)).1
    cases hbb
    refine ⟨?_, ?_, ?_, ?_⟩ <;> dsimp only <;> omega
  case _ => exact absurd hbb (by simp)

theorem bbox_allTrue (w h : Nat) (p : Nat → Nat → Bool) (hw : 0 < w) (hh : 0 < h)
    (hp : ∀ x y, x < w → y < h → p x y = true) : bbox w h p = some (0, 0, w, h) := by
  have hxs : (List.range w).filter (colHit p h) = List.range w :=
    List.filter_eq_self.mpr (fun x hx => by
      simp only [colHit, List.any_eq_true]
      exact ⟨0, List.mem_range.mpr hh, hp x 0 (List.mem_range.mp hx) hh⟩)
  have hys : (List.range h).filter (rowHit p w) = List.range h :=
    List.filter_eq_self.mpr (fun y hy => by
      simp only [rowHit, List.any_eq_true]
      exact ⟨0, List.mem_range.mpr hw, hp 0 y hw (List.mem_range.mp hy)⟩)
  obtain ⟨n, rfl⟩ : ∃ n, w = n + 1 := ⟨w - 1, by omega⟩
  obtain ⟨m, rfl⟩ : ∃ m, h = m + 1 := ⟨h - 1, by omega⟩
  have hdw : (List.range (n + 1)).head? = some 0 := by
    rw [List.range_succ_eq_map]; rfl
  have hlw : (List.range (n + 1)).getLast? = some n := by
    rw [List.range_succ]; exact List.getLast?_concat _
  have hdh : (List.range (m + 1)).head? = some 0 := by
    rw [List.range_succ_eq_map]; rfl
  have hlh : (List.range (m + 1)).getLast? = some m := by
    rw [List.range_succ]; exact List.getLast?_concat _
  simp only [bbox, hxs, hys, hdw, hlw, hdh, hlh]

set_option maxRecDepth 4096 in
theorem muldiv255_id255 : ∀ v, v < 256 → muldiv255 v 255 = v := by decide

theorem crop_solid_black (w h : Nat) (hw : 0 < w) (hh : 0 < h) :
    cropWhitespace (solid w h ⟨0, 0, 0, 255⟩) = (solid w h ⟨0, 0, 0, 255⟩, false) := by
  have ha : bbox w h (alphaHit (solid w h ⟨0, 0, 0, 255⟩)) = some (0, 0, w, h) :=
    bbox_allTrue w h _ hw hh (fun x y _ _ => by simp [alphaHit, solid])
  have hd : bbox w h (diffHit (solid w h ⟨0, 0, 0, 255⟩)) = some (0, 0, w, h) :=
    bbox_allTrue w h _ hw hh (fun x y _ _ => by simp [diffHit, solid, diffAmp])
  simp only [cropWhitespace, solid] at ha hd ⊢
  rw [ha, hd]
  simp

/-- C1: for every cropped image whose width/height ratio is outside the 1%
tolerance of 16/9, the padder keeps the width and sets the height to
`round(width / (16/9))` when the ratio exceeds 16/9, otherwise keeps the
height and sets the width to `round(height * (16/9))`; the content is
placed at offsets `((W - w) // 2, (H - h) // 2)`; in particular an
800×800 opaque image with no trimmable border is written as a 1422×800
canvas with the content moved right by 311 pixels. -/
theorem padder_canvas_and_offsets :
    (∀ w h : Nat, 0 < w → 0 < h → iscloseB (aspect w h) targetAspect = false →
      (targetAspect < aspect w h →
        padDims w h = (w, (pyRound ((w : ℚ) / (16 / 9))).toNat)) ∧
      (¬ targetAspect < aspect w h →
        padDims w h = ((pyRound ((h : ℚ) * (16 / 9))).toNat, h)) ∧
      padOffset w h = (((padDims w h).1 - w) / 2, ((padDims w h).2 - h) / 2)) ∧
    (∀ img : Image, cropWhitespace img = (img, false) →
      img.width = 800 → img.height = 800 →
      padToTarget img = some (pasteCenter 1422 800 img) ∧
      ∀ x y, x < 800 → y < 800 → (img.pix x y).a = 255 →
        (img.pix x y).r < 256 → (img.pix x y).g < 256 → (img.pix x y).b < 256 →
        (pasteCenter 1422 800 img).pix (311 + x) y = img.pix x y) ∧
    padDims 800 800 = (1422, 800) ∧ padOffset 800 800 = (311, 0) := by
  refine ⟨?_, ?_, by with_unfolding_all decide, by with_unfolding_all decide⟩
  · intro w h _ _ _
    refine ⟨?_, ?_, rfl⟩
    · intro hgt
      unfold padDims
      rw [if_pos hgt]
      with_unfolding_all rfl
    · intro hle
      unfold padDims
      rw [if_neg hle]
      with_unfolding_all rfl
  · intro img hcrop hw hh
    constructor
    · simp only [padToTarget]
      rw [hcrop]
      simp only [hw, hh]
      have h0 : ¬ ((800 : Nat) = 0 ∨ (800 : Nat) = 0) := by decide
      have hcl : iscloseB (aspect 800 800) targetAspect = false := by
        with_unfolding_all decide
      rw [if_neg h0, hcl]
      have hpd : padDims 800 800 = (1422, 800) := by with_unfolding_all decide
      simp [hpd]
    · intro x y hx hy hA hr hg hb
      have hcond : (1422 - img.width) / 2 ≤ 311 + x ∧
          311 + x < (1422 - img.width) / 2 + img.width ∧
          (800 - img.height) / 2 ≤ y ∧ y < (800 - img.height) / 2 + img.height := by
        rw [hw, hh]
        refine ⟨by omega, by omega, by omega, by omega⟩
      simp only [pasteCenter, if_pos hcond]
      have hox : (1422 - img.width) / 2 = 311 := by rw [hw]
      have hoy : (800 - img.height) / 2 = 0 := by rw [hh]
      rw [hox, hoy]
      have hxx : 311 + x - 311 = x := by omega
      have hyy : y - 0 = y := by omega
      rw [hxx, hyy]
      show blendT (img.pix x y) = img.pix x y
      unfold blendT
      rw [hA, muldiv255_id255 _ hr, muldiv255_id255 _ hg, muldiv255_id255 _ hb,
        muldiv255_id255 255 (by omega), ← hA]

/-- Witness for C1 at the 800×800 opaque black image. -/
theorem padder_canvas_and_offsets_witness :
    padDims 800 800 = (1422, 800) ∧
    padToTarget (solid 800 800 ⟨0, 0, 0, 255⟩) =
      some (pasteCenter 1422 800 (solid 800 800 ⟨0, 0, 0, 255⟩)) ∧
    (pasteCenter 1422 800 (solid 800 800 ⟨0, 0, 0, 255⟩)).pix 311 0 =
      (solid 800 800 ⟨0, 0, 0, 255⟩).pix 0 0 := by
  have h2 := padder_canvas_and_offsets.2.1 (solid 800 800 ⟨0, 0, 0, 255⟩)
    (crop_solid_black 800 800 (by decide) (by decide)) rfl rfl
  exact ⟨padder_canvas_and_offsets.2.2.1, h2.1,
    h2.2 0 0 (by decide) (by decide) (by decide) (by decide) (by decide) (by decide)⟩

/-- C2: the border trimmer first takes the bounding box of pixels with
non-zero alpha and crops to it (setting the flag) when it is a proper
sub-box of the canvas; otherwise it takes the bounding box of the
non-zero amplified difference from pure white and crops to that when it
is a proper sub-box; otherwise it returns the image unchanged with the
flag cleared.  Any box returned by `bbox` is non-degenerate and contained
in the canvas, so "different from the full box" means "strictly
smaller". -/
theorem trimmer_bbox_cases : ∀ img : Image,
    (∀ bb, bbox img.width img.height (alphaHit img) = some bb →
        bb ≠ (0, 0, img.width, img.height) → cropWhitespace img = (cropTo img bb, true)) ∧
    ((bbox img.width img.height (alphaHit img) = none ∨
      bbox img.width img.height (alphaHit img) = some (0, 0, img.width, img.height)) →
      (∀ bb, bbox img.width img.height (diffHit img) = some bb →
          bb ≠ (0, 0, img.width, img.height) → cropWhitespace img = (cropTo img bb, true)) ∧
      ((bbox img.width img.height (diffHit img) = none ∨
        bbox img.width img.height (diffHit img) = some (0, 0, img.width, img.height)) →
        cropWhitespace img = (img, false))) ∧
    (∀ bb, bbox img.width img.height (alphaHit img) = some bb →
      bb.1 < bb.2.2.1 ∧ bb.2.1 < bb.2.2.2 ∧ bb.2.2.1 ≤ img.width ∧ bb.2.2.2 ≤ img.height) ∧
    (∀ bb, bbox img.width img.height (diffHit img) = some bb →
      bb.1 < bb.2.2.1 ∧ bb.2.1 < bb.2.2.2 ∧ bb.2.2.1 ≤ img.width ∧ bb.2.2.2 ≤ img.height) := by
  intro img
  refine ⟨?_, ?_, fun bb hbb => bbox_within hbb, fun bb hbb => bbox_within hbb⟩
  · intro bb hbb hne
    simp only [cropWhitespace]
    rw [hbb]
    simp [hne]
  · intro halpha
    constructor
    · intro bb hbb hne
      simp only [cropWhitespace]
      rcases halpha with h | h <;> rw [h] <;> rw [hbb] <;> simp [hne]
    · intro hdiff
      simp only [cropWhitespace]
      rcases halpha with h | h <;> rw [h] <;> rcases hdiff with h2 | h2 <;> rw [h2] <;> simp

/-- Witness for C2: a 2×2 image whose only opaque pixel is at (1,1) is
cropped to the alpha bounding box (1,1,2,2) with the flag set. -/
theorem trimmer_bbox_cases_witness :
    bbox dotImg.width dotImg.height (alphaHit dotImg) = some (1, 1, 2, 2) ∧
    cropWhitespace dotImg = (cropTo dotImg (1, 1, 2, 2), true) := by
  refine ⟨by decide, (trimmer_bbox_cases dotImg).1 (1, 1, 2, 2) (by decide) (by decide)⟩

/-- C3: when the crop result has non-zero dimensions and its ratio is
within the 1% tolerance of 16/9, no padding happens: the file is written
(holding exactly the cropped image) iff cropping occurred, and with no
crop the file is left unmodified. -/
theorem padder_noop_within_tolerance : ∀ (img c : Image) (dc : Bool),
    cropWhitespace img = (c, dc) → c.width ≠ 0 → c.height ≠ 0 →
    iscloseB (aspect c.width c.height) targetAspect = true →
    padToTarget img = (if dc then some c else none) ∧
    (dc = false → runOnce img = img) := by
  intro img c dc hcrop hw hh hclose
  have h1 : padToTarget img = (if dc then some c else none) := by
    simp only [padToTarget]
    rw [hcrop]
    simp [hw, hh, hclose]
  refine ⟨h1, ?_⟩
  intro hdc
  unfold runOnce
  rw [h1, hdc]
  simp

/-- Witness for C3 at an uncroppable 16×9 opaque black image: no write. -/
theorem padder_noop_within_tolerance_witness :
    padToTarget (solid 16 9 ⟨0, 0, 0, 255⟩) = none ∧
    runOnce (solid 16 9 ⟨0, 0, 0, 255⟩) = solid 16 9 ⟨0, 0, 0, 255⟩ := by
  have h := padder_noop_within_tolerance (solid 16 9 ⟨0, 0, 0, 255⟩)
    (solid 16 9 ⟨0, 0, 0, 255⟩) false
    (crop_solid_black 16 9 (by decide) (by decide)) (by decide) (by decide)
    (by with_unfolding_all decide)
  exact ⟨h.1, h.2 rfl⟩

/-- C4 counterexample: the normalizer is not idempotent across sequential
runs.  On `ringImg` the first run crops the transparent border and writes
a 16×9 image that still has a pure-white ring; the second run trims that
ring with the white-difference pass and pads the 14×7 remainder to 14×8,
so the file content after two runs differs from the content after one. -/
theorem normalizer_second_run_differs : runOnce (runOnce ringImg) ≠ runOnce ringImg := by
  intro hcontra
  have hwidth := congrArg Image.width hcontra
  have h14 : (runOnce (runOnce ringImg)).width = 14 := by with_unfolding_all decide
  have h16 : (runOnce ringImg).width = 16 := by with_unfolding_all decide
  rw [h14, h16] at hwidth
  exact absurd hwidth (by decide)

/-- C4 amended: sequential runs are idempotent when the first run leaves
the file unmodified (and in general a second run may crop further, as the
counterexample shows). -/
theorem normalizer_noop_stable : ∀ img : Image,
    runOnce img = img → runOnce (runOnce img) = runOnce img := by
  intro img h
  rw [h]
  exact h

/-- Witness for the amended C4 at an image the normalizer leaves alone. -/
theorem normalizer_noop_stable_witness :
    runOnce (solid 16 9 ⟨0, 0, 0, 255⟩) = solid 16 9 ⟨0, 0, 0, 255⟩ ∧
    runOnce (runOnce (solid 16 9 ⟨0, 0, 0, 255⟩)) = runOnce (solid 16 9 ⟨0, 0, 0, 255⟩) := by
  have h : runOnce (solid 16 9 ⟨0, 0, 0, 255⟩) = solid 16 9 ⟨0, 0, 0, 255⟩ := by
    with_unfolding_all rfl
  exact ⟨h, normalizer_noop_stable _ h⟩

theorem replaceList_cons_skip {pat rep : List Char} {c : Char} {t : List Char}
    (h : pat.isPrefixOf (c :: t) = false) :
    replaceList pat rep (c :: t) = c :: replaceList pat rep t := by
  rw [replaceList]
  simp [h]

theorem strReplace_ne_empty (s pat rep : String) (hs : s ≠ "")
    (hp : pat.data.isPrefixOf s.data = false) : strReplace s pat rep ≠ "" := by
  intro heq
  have hdata : replaceList pat.data rep.data s.data = [] := congrArg String.data heq
  cases hd : s.data with
  | nil =>
    apply hs
    cases s
    simp_all
  | cons c t =>
    rw [hd] at hdata hp
    rw [replaceList_cons_skip hp] at hdata
    simp at hdata

/-- C5: in the rendered card's link components, an accepted status on the
first status-bearing paper sub-entry together with a present paper URL
yields a paper button and no status badge; any other non-empty status
yields a status badge and no paper button; the two never appear
together. -/
theorem paper_button_precedence : ∀ data : List (String × YamlValue),
    (lowerStr (paperStatusOf data) = "accepted" → paperUrlOf data ≠ "" →
      (cardLinkParts data).1 ≠ "" ∧ (cardLinkParts data).2.1 = "") ∧
    (paperStatusOf data ≠ "" →
      ¬ (lowerStr (paperStatusOf data) = "accepted" ∧ paperUrlOf data ≠ "") →
      (cardLinkParts data).2.1 ≠ "" ∧ (cardLinkParts data).1 = "") ∧
    ((cardLinkParts data).1 = "" ∨ (cardLinkParts data).2.1 = "") := by
  intro data
  simp only [cardLinkParts]
  by_cases hc : lowerStr (paperStatusOf data) = "accepted" ∧ paperUrlOf data ≠ ""
  · rw [if_pos hc]
    refine ⟨fun _ _ => ⟨?_, rfl⟩, fun _ hn => absurd hc hn, Or.inr rfl⟩
    unfold renderPaperButton
    rw [if_neg hc.2]
    exact strReplace_ne_empty _ _ _ (by decide) (by decide)
  · rw [if_neg hc]
    by_cases hst : paperStatusOf data = ""
    · rw [if_neg (by simp [hst])]
      exact ⟨fun h1 h2 => absurd ⟨h1, h2⟩ hc, fun hst2 _ => absurd hst hst2, Or.inl rfl⟩
    · rw [if_pos hst]
      refine ⟨fun h1 h2 => absurd ⟨h1, h2⟩ hc, fun _ _ => ⟨?_, rfl⟩, Or.inl rfl⟩
      unfold renderStatusBadge
      exact strReplace_ne_empty _ _ _ (by decide) (by decide)

/-- Witness for C5 at an entry whose paper list holds an accepted status
and a URL. -/
theorem paper_button_precedence_witness :
    (cardLinkParts [("paper", YamlValue.seq [[("status", "Accepted")], [("url", "x.pdf")]])]).1 ≠ "" ∧
    (cardLinkParts [("paper", YamlValue.seq [[("status", "Accepted")], [("url", "x.pdf")]])]).2.1 = "" :=
  (paper_button_precedence _).1 (by decide) (by decide)

/-- C6: parsing the four-line descriptor `title: "Demo"` / `images:` /
`  - src: a.png` / `    caption: "Fig 1"` yields a mapping sending
`title` to `Demo` and `images` to one sub-mapping with `src` `a.png` and
`caption` `Fig 1`. -/
theorem parse_demo_descriptor :
    parseSimpleYaml "title: \"Demo\"\nimages:\n  - src: a.png\n    caption: \"Fig 1\"" =
      [("title", YamlValue.scalar "Demo"),
       ("images", YamlValue.seq [[("src", "a.png"), ("caption", "Fig 1")]])] := by
  decide

/-- C9: inside an open multi-line quoted block, a line whose stripped
content starts with `#` is dropped entirely — it adds no piece and cannot
close the block even when it ends with an unescaped quote — while a blank
line adds an empty piece (a paragraph break). -/
theorem quoted_block_skips_comment_lines : ∀ (seg : String) (rest : List String),
    (strip seg ≠ "" → startsWithStr (strip seg) "#" = true →
      parseQuotedRest (seg :: rest) = parseQuotedRest rest) ∧
    (strip seg = "" →
      parseQuotedRest (seg :: rest) =
        ("" :: (parseQuotedRest rest).1, (parseQuotedRest rest).2)) := by
  intro seg rest
  constructor
  · intro h1 h2
    simp only [parseQuotedRest]
    rw [if_neg h1, if_pos h2]
  · intro h1
    simp only [parseQuotedRest]
    rw [if_pos h1]

/-- Witness for C9 at a comment line ending in an unescaped quote. -/
theorem quoted_block_skips_comment_lines_witness :
    parseQuotedRest ("  # note\"" :: ["tail\""]) = parseQuotedRest ["tail\""] :=
  (quoted_block_skips_comment_lines "  # note\"" ["tail\""]).1 (by decide) (by decide)

theorem length_filterMap_eq_length_filter {α β : Type} (f : α → Option β) (p : α → Bool)
    (hfp : ∀ a, (f a).isSome = p a) :
    ∀ l : List α, (l.filterMap f).length = (l.filter p).length := by
  intro l
  induction l with
  | nil => rfl
  | cons a t ih =>
    have ha := hfp a
    cases hf : f a with
    | none =>
      rw [hf] at ha
      simp only [Option.isSome_none] at ha
      rw [List.filterMap_cons_none hf, List.filter_cons, ← ha]
      simpa using ih
    | some b =>
      rw [hf] at ha
      simp only [Option.isSome_some] at ha
      rw [List.filterMap_cons_some hf, List.filter_cons, ← ha]
      simpa using ih

theorem galleryFigures_length (rel : String → String) (t : String) :
    ∀ images : List (List (String × String)),
      (galleryFigures rel images t).length =
        (images.filter (fun i => dgetD i "src" "" ≠ "")).length := by
  intro images
  refine length_filterMap_eq_length_filter _ _ ?_ images
  intro image
  by_cases h : dgetD image "src" "" = "" <;> simp [h]

/-- C10: the gallery renders one figure per image item with a non-empty
`src` (items without one are skipped), and the whole gallery block is the
empty string exactly when no item has a non-empty `src`. -/
theorem gallery_renders_only_src_items :
    ∀ (rel : String → String) (images : List (List (String × String))) (t : String),
      (galleryFigures rel images t).length =
        (images.filter (fun i => dgetD i "src" "" ≠ "")).length ∧
      (renderGallery rel images t = "" ↔
        images.filter (fun i => dgetD i "src" "" ≠ "") = []) := by
  intro rel images t
  refine ⟨galleryFigures_length rel t images, ?_⟩
  simp only [renderGallery]
  by_cases hf : galleryFigures rel images t = []
  · rw [if_pos hf]
    have hlen := galleryFigures_length rel t images
    rw [hf] at hlen
    simp only [List.length_nil] at hlen
    constructor
    · intro _
      exact List.length_eq_zero.mp hlen.symm
    · intro _
      rfl
  · rw [if_neg hf]
    have hlen := galleryFigures_length rel t images
    constructor
    · intro habs
      exact absurd habs (strReplace_ne_empty _ _ _ (by decide) (by decide))
    · intro hnil
      rw [hnil] at hlen
      simp only [List.length_nil] at hlen
      exact absurd (List.length_eq_zero.mp hlen) hf

theorem extractGo_mem (p : String → Bool) :
    ∀ (l seen : List String) (s : String), s ∈ extractGo p l seen →
      s ∉ seen ∧ s ≠ "" ∧ strHasSub s "://" = false ∧ startsWithStr s "data:" = false := by
  intro l
  induction l with
  | nil => intro seen s h; simp [extractGo] at h
  | cons a t ih =>
    intro seen s h
    simp only [extractGo] at h
    by_cases h1 : a = "" ∨ a ∈ seen
    · rw [if_pos h1] at h
      exact ih seen s h
    · rw [if_neg h1] at h
      push_neg at h1
      by_cases h2 : (strHasSub a "://" || startsWithStr a "data:") = true
      · rw [if_pos h2] at h
        have := ih (a :: seen) s h
        exact ⟨fun hm => this.1 (List.mem_cons_of_mem _ hm), this.2⟩
      · rw [if_neg h2] at h
        simp only [Bool.or_eq_true, not_or, Bool.not_eq_true] at h2
        by_cases h3 : p a = true
        · rw [if_pos h3] at h
          rcases List.mem_cons.mp h with rfl | hrest
          · exact ⟨h1.2, h1.1, h2.1, h2.2⟩
          · have := ih (a :: seen) s hrest
            exact ⟨fun hm => this.1 (List.mem_cons_of_mem _ hm), this.2⟩
        · rw [if_neg h3] at h
          have := ih (a :: seen) s h
          exact ⟨fun hm => this.1 (List.mem_cons_of_mem _ hm), this.2⟩

theorem extractGo_nodup (p : String → Bool) :
    ∀ (l seen : List String), (extractGo p l seen).Nodup := by
  intro l
  induction l with
  | nil => intro seen; simp [extractGo]
  | cons a t ih =>
    intro seen
    simp only [extractGo]
    by_cases h1 : a = "" ∨ a ∈ seen
    · rw [if_pos h1]; exact ih seen
    · rw [if_neg h1]
      by_cases h2 : (strHasSub a "://" || startsWithStr a "data:") = true
      · rw [if_pos h2]; exact ih (a :: seen)
      · rw [if_neg h2]
        by_cases h3 : p a = true
        · rw [if_pos h3]
          refine List.nodup_cons.mpr ⟨?_, ih (a :: seen)⟩
          intro hmem
          exact (extractGo_mem p t (a :: seen) a hmem).1 (List.mem_cons_self a seen)
        · rw [if_neg h3]; exact ih (a :: seen)

theorem extractGo_sublist (p : String → Bool) :
    ∀ (l seenE seenF : List String),
      (∀ s, s ∈ seenE → s ∈ seenF) → (∀ s, s ∈ seenF → s ∈ seenE ∨ s = "") →
      (extractGo p l seenE).Sublist (firstOccurGo l seenF) := by
  intro l
  induction l with
  | nil => intro seenE seenF _ _; simp [extractGo, firstOccurGo]
  | cons a t ih =>
    intro seenE seenF inv1 inv2
    simp only [extractGo, firstOccurGo]
    by_cases ha0 : a = ""
    · rw [if_pos (Or.inl ha0)]
      by_cases haF : a ∈ seenF
      · rw [if_pos haF]
        exact ih seenE seenF inv1 inv2
      · rw [if_neg haF]
        refine List.Sublist.cons a ?_
        refine ih seenE (a :: seenF) (fun s hs => List.mem_cons_of_mem _ (inv1 s hs)) ?_
        intro s hs
        rcases List.mem_cons.mp hs with rfl | hs2
        · exact Or.inr ha0
        · exact inv2 s hs2
    · by_cases haE : a ∈ seenE
      · rw [if_pos (Or.inr haE), if_pos (inv1 a haE)]
        exact ih seenE seenF inv1 inv2
      · have haF : a ∉ seenF := by
          intro hm
          rcases inv2 a hm with h | h
          · exact haE h
          · exact ha0 h
        rw [if_neg (by tauto), if_neg haF]
        have inv1' : ∀ s, s ∈ a :: seenE → s ∈ a :: seenF := by
          intro s hs
          rcases List.mem_cons.mp hs with rfl | hs2
          · exact List.mem_cons_self s seenF
          · exact List.mem_cons_of_mem _ (inv1 s hs2)
        have inv2' : ∀ s, s ∈ a :: seenF → s ∈ a :: seenE ∨ s = "" := by
          intro s hs
          rcases List.mem_cons.mp hs with rfl | hs2
          · exact Or.inl (List.mem_cons_self s seenE)
          · rcases inv2 s hs2 with h | h
            · exact Or.inl (List.mem_cons_of_mem _ h)
            · exact Or.inr h
        by_cases h2 : (strHasSub a "://" || startsWithStr a "data:") = true
        · rw [if_pos h2]
          exact List.Sublist.cons a (ih (a :: seenE) (a :: seenF) inv1' inv2')
        · rw [if_neg h2]
          by_cases h3 : p a = true
          · rw [if_pos h3]
            exact List.Sublist.cons₂ a (ih (a :: seenE) (a :: seenF) inv1' inv2')
          · rw [if_neg h3]
            exact List.Sublist.cons a (ih (a :: seenE) (a :: seenF) inv1' inv2')

/-- C7: every source the extractor yields is free of a scheme separator
and of a data-URI prefix; the yielded sequence is a subsequence of the
first-occurrence sequence of the collected sources (so each source
appears at most once, in first-seen order), and it has no duplicates. -/
theorem extractor_dedup_order : ∀ (p : String → Bool) (sources : List String),
    (∀ s, s ∈ iterLocalImagePaths p sources →
      strHasSub s "://" = false ∧ startsWithStr s "data:" = false) ∧
    (iterLocalImagePaths p sources).Sublist (firstOccur sources) ∧
    (iterLocalImagePaths p sources).Nodup := by
  intro p sources
  refine ⟨?_, ?_, extractGo_nodup p sources []⟩
  · intro s hs
    exact (extractGo_mem p sources [] s hs).2.2
  · exact extractGo_sublist p sources [] [] (by simp) (by simp)

/-- Witness for C7 on a source list with a URL, a data URI, a blank and a
duplicate. -/
theorem extractor_dedup_order_witness :
    (strHasSub "a.png" "://" = false ∧ startsWithStr "a.png" "data:" = false) ∧
    (iterLocalImagePaths (fun _ => true)
      ["a.png", "http://h/i.png", "a.png", "data:xyz", "", "b.webp"]).Nodup := by
  refine ⟨(extractor_dedup_order (fun _ => true)
      ["a.png", "http://h/i.png", "a.png", "data:xyz", "", "b.webp"]).1 "a.png" (by decide),
    (extractor_dedup_order (fun _ => true)
      ["a.png", "http://h/i.png", "a.png", "data:xyz", "", "b.webp"]).2.2⟩

/-- C8: the image normalizer's main exits non-zero exactly when the
portfolio HTML file is missing; when it exists the exit status is zero
whatever the per-image checks report (missing or unsupported images are
skipped as warnings). -/
theorem main_exit_iff_missing_html : ∀ (htmlExists : Bool) (sources : List String)
    (fsOk : String → Bool) (load : String → Image),
    ((mainRun htmlExists sources fsOk load).1 ≠ 0 ↔ htmlExists = false) := by
  intro he sources fsOk load
  cases he <;> simp [mainRun]

/-- Witness for C8: existing HTML gives exit 0; missing HTML gives a
non-zero exit. -/
theorem main_exit_iff_missing_html_witness :
    (mainRun true [] (fun _ => true) (fun _ => solid 1 1 ⟨0, 0, 0, 0⟩)).1 = 0 ∧
    (mainRun false [] (fun _ => true) (fun _ => solid 1 1 ⟨0, 0, 0, 0⟩)).1 ≠ 0 := by
  constructor
  · by_contra hne
    exact Bool.noConfusion
      ((main_exit_iff_missing_html true [] (fun _ => true) (fun _ => solid 1 1 ⟨0, 0, 0, 0⟩)).mp hne)
  · exact (main_exit_iff_missing_html false [] (fun _ => true)
      (fun _ => solid 1 1 ⟨0, 0, 0, 0⟩)).mpr rfl

/-- Witness for C10: an image list whose single item lacks `src` renders
an empty gallery. -/
theorem gallery_renders_only_src_items_witness :
    renderGallery (fun s => s) [[("caption", "no src")]] "T" = "" :=
  (gallery_renders_only_src_items (fun s => s) [[("caption", "no src")]] "T").2.mpr (by decide)
